import Mathlib

/-!
Verification of the digital-twin-proxy core (src/main.rs) against its
natural-language specification.  The Rust source is shallowly embedded:
pure functions become Lean functions on `List Char` / `Nat` / `Int`,
filesystem and network effects become explicit oracle records, and
fallible steps return `Except Err`.  Timestamps are modelled as `Int`
nanoseconds since the Unix epoch (chrono's internal precision).
-/

namespace DTP

/-- Error values: the embedding's stand-in for `anyhow::Error` and the
specific failures named by the spec (`InvalidDuration`, `InvalidTimestamp`). -/
inductive Err where
  | invalidDuration
  | invalidTimestamp
  | ioFail (msg : String)
  | llmFail (msg : String)
  | jsonFail (msg : String)
  | fetchFail (msg : String)
deriving DecidableEq

/-- Rust `char::is_whitespace` restricted to the ASCII whitespace that can
occur in a squid access-log line. -/
def isWsChar (c : Char) : Bool :=
  c = ' ' || c = '\t' || c = '\n' || c = '\x0b' || c = '\x0c' || c = '\r'

/-- Accumulator-style worker for `split_whitespace`. -/
def splitWsAux : List Char → List Char → List (List Char)
  | cur, [] => if cur.isEmpty then [] else [cur.reverse]
  | cur, c :: rest =>
    if isWsChar c then
      if cur.isEmpty then splitWsAux [] rest
      else cur.reverse :: splitWsAux [] rest
    else splitWsAux (c :: cur) rest

/-- Rust `str::split_whitespace`: maximal runs of non-whitespace characters. -/
def split_whitespace (cs : List Char) : List (List Char) :=
  splitWsAux [] cs

/-- Embedding of `parse_squid_log_line` (src/main.rs:295-320): tokenize on
whitespace, require at least 8 fields, take field 7 verbatim when it starts
with a scheme, otherwise synthesize a URL from the Host field. -/
def parse_squid_log_line (cs : List Char) : Option (List Char) :=
  let parts := split_whitespace cs
  if parts.length < 8 then none
  else do
    let host ← parts.get? 7
    let url ← parts.get? 6
    if ("http://".data.isPrefixOf url || "https://".data.isPrefixOf url) then
      some url
    else do
      let m ← parts.get? 5
      if m = "CONNECT".data then some ("https://".data ++ host)
      else some ("http://".data ++ host)

/-- Claim C5: for every input line, `parse_squid_log_line` returns none when
there are fewer than 8 whitespace-separated fields; the 7th field verbatim
when it begins with `http://` or `https://`; `https://host` from the 8th
field when the 6th field equals `CONNECT`; and `http://host` otherwise. -/
theorem c5_parse_line_spec (cs : List Char) :
    ((split_whitespace cs).length < 8 → parse_squid_log_line cs = none) ∧
    (∀ u h7, 8 ≤ (split_whitespace cs).length →
      (split_whitespace cs)[6]? = some u →
      (split_whitespace cs)[7]? = some h7 →
      ((("http://".data <+: u ∨ "https://".data <+: u) →
          parse_squid_log_line cs = some u) ∧
       (∀ m, ¬("http://".data <+: u ∨ "https://".data <+: u) →
          (split_whitespace cs)[5]? = some m →
          ((m = "CONNECT".data →
              parse_squid_log_line cs = some ("https://".data ++ h7)) ∧
           (m ≠ "CONNECT".data →
              parse_squid_log_line cs = some ("http://".data ++ h7)))))) := by
  constructor
  · intro h
    simp [parse_squid_log_line, h]
  · intro u h7 hlen h6 h7eq
    have hnotlt : ¬ (split_whitespace cs).length < 8 := by omega
    constructor
    · intro hurl
      simp [parse_squid_log_line, hnotlt, h6, h7eq, hurl]
    · intro m hurl hm
      rw [not_or] at hurl
      constructor
      · intro hconn
        simp [parse_squid_log_line, hnotlt, h6, h7eq, hm, hurl.1, hurl.2, hconn]
      · intro hconn
        simp [parse_squid_log_line, hnotlt, h6, h7eq, hm, hurl.1, hurl.2, hconn]

/-- Witness for C5 at concrete lines covering all four cases. -/
theorem c5_parse_line_witness :
    parse_squid_log_line "a b".data = none ∧
    parse_squid_log_line "1 2 3 4 5 GET http://e.com/ e.com".data =
      some "http://e.com/".data ∧
    parse_squid_log_line "1 2 3 4 5 CONNECT e.org:443 e.org:443".data =
      some "https://e.org:443".data ∧
    parse_squid_log_line "1 2 3 4 5 GET e.net:80 e.net".data =
      some "http://e.net".data := by
  refine ⟨?_, ?_, ?_, ?_⟩
  · exact (c5_parse_line_spec "a b".data).1 (by decide)
  · exact ((c5_parse_line_spec "1 2 3 4 5 GET http://e.com/ e.com".data).2
      "http://e.com/".data "e.com".data (by decide) (by decide) (by decide)).1
      (by decide)
  · exact (((c5_parse_line_spec "1 2 3 4 5 CONNECT e.org:443 e.org:443".data).2
      "e.org:443".data "e.org:443".data (by decide) (by decide) (by decide)).2
      "CONNECT".data (by decide) (by decide)).1 (by decide)
  · exact (((c5_parse_line_spec "1 2 3 4 5 GET e.net:80 e.net".data).2
      "e.net:80".data "e.net".data (by decide) (by decide) (by decide)).2
      "GET".data (by decide) (by decide)).2 (by decide)

/-- Claim C10: once a line has at least 8 whitespace-separated fields,
`parse_squid_log_line` always returns some URL, whatever the fields hold. -/
theorem c10_eight_fields_some (cs : List Char)
    (h : 8 ≤ (split_whitespace cs).length) :
    ∃ u, parse_squid_log_line cs = some u := by
  have hnotlt : ¬ (split_whitespace cs).length < 8 := by omega
  have h6 : ∃ u, (split_whitespace cs)[6]? = some u :=
    ⟨_, List.getElem?_eq_getElem (show 6 < (split_whitespace cs).length by omega)⟩
  have h7 : ∃ u, (split_whitespace cs)[7]? = some u :=
    ⟨_, List.getElem?_eq_getElem (show 7 < (split_whitespace cs).length by omega)⟩
  have h5 : ∃ u, (split_whitespace cs)[5]? = some u :=
    ⟨_, List.getElem?_eq_getElem (show 5 < (split_whitespace cs).length by omega)⟩
  obtain ⟨u, hu⟩ := h6
  obtain ⟨h7v, hh7⟩ := h7
  obtain ⟨m, hm⟩ := h5
  by_cases hurl : ("http://".data <+: u ∨ "https://".data <+: u)
  · exact ⟨u, by simp [parse_squid_log_line, hnotlt, hu, hh7, hurl]⟩
  · rw [not_or] at hurl
    by_cases hconn : m = "CONNECT".data
    · exact ⟨"https://".data ++ h7v, by
        simp [parse_squid_log_line, hnotlt, hu, hh7, hurl.1, hurl.2, hm, hconn]⟩
    · exact ⟨"http://".data ++ h7v, by
        simp [parse_squid_log_line, hnotlt, hu, hh7, hurl.1, hurl.2, hm, hconn]⟩

/-- Witness for C10: a nonsense line with 8 fields still yields a URL. -/
theorem c10_eight_fields_witness :
    ∃ u, parse_squid_log_line "x1 x2 x3 x4 x5 x6 x7 x8".data = some u :=
  c10_eight_fields_some "x1 x2 x3 x4 x5 x6 x7 x8".data (by decide)

/-- Strip one trailing carriage return from a line accumulated in reverse,
then restore forward order: `BufRead::lines` drops a `\r` only when it sat
immediately before the `\n` that ended the line. -/
def stripCrRev (acc : List Char) : List Char :=
  match acc with
  | '\r' :: t => t.reverse
  | _ => acc.reverse

/-- Worker for `rustLines`, carrying the current line in reverse. -/
def rustLinesAux : List Char → List Char → List (List Char)
  | acc, [] => if acc.isEmpty then [] else [acc.reverse]
  | acc, c :: rest =>
    if c = '\n' then stripCrRev acc :: rustLinesAux [] rest
    else rustLinesAux (c :: acc) rest

/-- Embedding of Rust `BufRead::lines` over the remaining bytes: splits at
`\n` (stripping a preceding `\r`), and also yields a final segment that has
no terminator, exactly as the iterator in `monitor_squid_logs` does. -/
def rustLines (cs : List Char) : List (List Char) :=
  rustLinesAux [] cs

/-- Oracle record for one iteration of the `monitor_squid_logs` poll loop:
the filesystem answers the iteration's fallible steps.  `openRes` carries the
file's byte content on success; `linesOk` is how many lines the reader
yields before `map_while(Result::ok)` stops on a read error (any value at
least the number of available lines means no read error). -/
structure PollEnv where
  fileExists : Bool
  openRes : Except Err (List Char)
  metaRes : Except Err Unit
  seekRes : Except Err Unit
  linesOk : Nat
  appendOk : List Char → Bool

/-- Embedding of one iteration of the poll loop in `monitor_squid_logs`
(src/main.rs:322-357): existence check, `File::open(..)?`, `metadata()?`,
size comparison against the cursor, `seek_relative(..)?`, reading lines,
parsing each and appending (append failures only logged), then
`last_position = current_size`.  Returns the new cursor and the URLs that
were successfully appended; an `error` is an early return from the function
(terminating the loop). -/
def pollStep (env : PollEnv) (pos : Nat) : Except Err (Nat × List (List Char)) :=
  if env.fileExists then
    match env.openRes with
    | .error e => .error e
    | .ok content =>
      match env.metaRes with
      | .error e => .error e
      | .ok () =>
        let currentSize := content.length
        if currentSize > pos then
          match env.seekRes with
          | .error e => .error e
          | .ok () =>
            let lines := (rustLines (content.drop pos)).take env.linesOk
            let urls := lines.filterMap parse_squid_log_line
            .ok (currentSize, urls.filter env.appendOk)
        else .ok (pos, [])
  else .ok (pos, [])

/-- The poll loop itself: runs while the shared `running` flag (indexed by
iteration) is set, threading the cursor; `fuel` bounds the number of
iterations so the embedding is total.  An `error` from an iteration is an
early return from `monitor_squid_logs`. -/
def monitorLoop (running : Nat → Bool) (envs : Nat → PollEnv) :
    Nat → Nat → Nat → Except Err Nat
  | 0, _, pos => .ok pos
  | fuel + 1, i, pos =>
    if running i then
      match pollStep (envs i) pos with
      | .error e => .error e
      | .ok (pos', _) => monitorLoop running envs fuel (i + 1) pos'
    else .ok pos

/-- A truncated file for the C1 counterexample: 5 bytes while the cursor
is at 10. -/
def c1Env : PollEnv :=
  { fileExists := true
    openRes := .ok ['a', 'b', 'c', 'd', 'e']
    metaRes := .ok ()
    seekRes := .ok ()
    linesOk := 1000
    appendOk := fun _ => true }

/-- Counterexample to claim C1: when the observed size (5) is strictly
smaller than the cursor (10), the code does not reset the cursor — neither
to 0 (section 4.3) nor to the file's current length (section 3); it leaves
the stale offset in place. -/
theorem c1_truncation_counterexample :
    pollStep c1Env 10 = .ok (10, []) ∧ (10 : Nat) ≠ 0 ∧
      (10 : Nat) ≠ ['a', 'b', 'c', 'd', 'e'].length := by
  refine ⟨rfl, by decide, by decide⟩

/-- Amended claim C1: the cursor of `monitor_squid_logs` never decreases at
all; in particular, on a poll that observes a current size strictly smaller
than the cursor (truncation/rotation) the cursor is left unchanged, not
reset, and a later read would resume from the stale offset. -/
theorem c1_cursor_never_decreases (env : PollEnv) (pos pos' : Nat)
    (urls : List (List Char)) (h : pollStep env pos = .ok (pos', urls)) :
    pos ≤ pos' ∧
    (∀ content, env.openRes = .ok content → content.length < pos →
      pos' = pos) := by
  unfold pollStep at h
  by_cases hex : env.fileExists
  · rw [if_pos hex] at h
    cases hopen : env.openRes with
    | error e => rw [hopen] at h; cases h
    | ok content =>
      rw [hopen] at h
      cases hmeta : env.metaRes with
      | error e => rw [hmeta] at h; cases h
      | ok u =>
        cases u
        rw [hmeta] at h
        simp only at h
        by_cases hsz : content.length > pos
        · rw [if_pos hsz] at h
          cases hseek : env.seekRes with
          | error e => rw [hseek] at h; cases h
          | ok u =>
            cases u
            rw [hseek] at h
            simp only [Except.ok.injEq, Prod.mk.injEq] at h
            refine ⟨by omega, ?_⟩
            intro content' hc hlt
            injection hc with h2
            subst h2
            omega
        · rw [if_neg hsz] at h
          simp only [Except.ok.injEq, Prod.mk.injEq] at h
          refine ⟨by omega, fun _ _ _ => by omega⟩
  · rw [if_neg hex] at h
    simp only [Except.ok.injEq, Prod.mk.injEq] at h
    refine ⟨by omega, fun _ _ _ => by omega⟩

/-- Witness for the amended C1: a concrete truncated poll keeps the cursor
at 10. -/
theorem c1_cursor_witness :
    10 ≤ 10 ∧ (∀ content, c1Env.openRes = .ok content →
      content.length < 10 → 10 = 10) :=
  c1_cursor_never_decreases c1Env 10 10 [] rfl

/-- File content for the C2 counterexample: one complete line followed by a
line with no terminator (still being written). -/
def c2content : List Char :=
  "a b c d e f http://x.com h\nA B C D E F http://y.com H".data

/-- A fully healthy poll environment over `c2content`. -/
def c2Env : PollEnv :=
  { fileExists := true
    openRes := .ok c2content
    metaRes := .ok ()
    seekRes := .ok ()
    linesOk := 1000
    appendOk := fun _ => true }

/-- Counterexample to claim C2: the poll consumes the trailing unterminated
line too (its URL `http://y.com` is appended), and the cursor advances to
the full file size 53, not to offset 27 just past the last complete line. -/
theorem c2_partial_line_counterexample :
    pollStep c2Env 0 =
      .ok (53, ["http://x.com".data, "http://y.com".data]) ∧
    c2content.length = 53 ∧ ¬ (53 : Nat) ≤ 27 := by
  refine ⟨rfl, by decide, by decide⟩

/-- Amended claim C2: on a poll whose fallible steps all succeed and that
observes new bytes, the code consumes every line `BufRead::lines` yields
from the cursor to end of file — including a trailing line with no
terminator — and advances the cursor to the observed file size, not merely
past the last complete line. -/
theorem c2_poll_consumes_all (env : PollEnv) (pos : Nat) (content : List Char)
    (hex : env.fileExists = true) (hopen : env.openRes = .ok content)
    (hmeta : env.metaRes = .ok ()) (hseek : env.seekRes = .ok ())
    (hsz : pos < content.length)
    (hlines : (rustLines (content.drop pos)).length ≤ env.linesOk) :
    pollStep env pos = .ok (content.length,
      ((rustLines (content.drop pos)).filterMap
        parse_squid_log_line).filter env.appendOk) := by
  unfold pollStep
  rw [if_pos hex, hopen, hmeta]
  simp only
  rw [if_pos (show content.length > pos by omega), hseek]
  rw [List.take_of_length_le hlines]

/-- Witness for the amended C2 at the concrete two-line file. -/
theorem c2_poll_witness :
    pollStep c2Env 0 = .ok (c2content.length,
      ((rustLines (c2content.drop 0)).filterMap
        parse_squid_log_line).filter c2Env.appendOk) :=
  c2_poll_consumes_all c2Env 0 c2content rfl rfl rfl rfl (by decide) (by decide)

/-- A poll environment for a step where the source file does not exist:
the iteration is a no-op. -/
def c3EnvOk : PollEnv :=
  { fileExists := false
    openRes := .ok []
    metaRes := .ok ()
    seekRes := .ok ()
    linesOk := 0
    appendOk := fun _ => true }

/-- A poll environment whose `File::open` fails. -/
def c3EnvBad : PollEnv :=
  { fileExists := true
    openRes := .error (.ioFail "open failed")
    metaRes := .ok ()
    seekRes := .ok ()
    linesOk := 0
    appendOk := fun _ => true }

/-- Counterexample to claim C3: with the running flag still set, an
`File::open` failure at the second iteration makes `monitor_squid_logs`
return the error — the internal step's failure terminates the loop instead
of being handled locally. -/
theorem c3_open_error_counterexample :
    monitorLoop (fun _ => true) (fun i => if i = 0 then c3EnvOk else c3EnvBad)
      5 0 0 = .error (.ioFail "open failed") := by
  rfl

/-- Amended claim C3: append failures and mid-read line errors never
terminate the poll loop, but a failure of `File::open`, `metadata` or
`seek_relative` does; as long as those three succeed on every iteration the
loop only ever finishes normally, whatever the append results and read
truncations are. -/
theorem c3_local_errors_dont_stop_loop (running : Nat → Bool)
    (envs : Nat → PollEnv)
    (hopen : ∀ i, ∃ c, (envs i).openRes = .ok c)
    (hmeta : ∀ i, (envs i).metaRes = .ok ())
    (hseek : ∀ i, (envs i).seekRes = .ok ())
    (fuel i pos : Nat) :
    ∃ pos', monitorLoop running envs fuel i pos = .ok pos' := by
  induction fuel generalizing i pos with
  | zero => exact ⟨pos, rfl⟩
  | succ n ih =>
    unfold monitorLoop
    by_cases hr : running i
    · rw [if_pos hr]
      obtain ⟨c, hc⟩ := hopen i
      have hstep : ∃ r, pollStep (envs i) pos = .ok r := by
        unfold pollStep
        by_cases hex : (envs i).fileExists
        · rw [if_pos hex, hc, hmeta i]
          simp only
          by_cases hsz : c.length > pos
          · rw [if_pos hsz, hseek i]
            exact ⟨_, rfl⟩
          · rw [if_neg hsz]
            exact ⟨_, rfl⟩
        · rw [if_neg hex]
          exact ⟨_, rfl⟩
      obtain ⟨⟨pos', urls⟩, hp⟩ := hstep
      rw [hp]
      exact ih (i + 1) pos'
    · rw [if_neg hr]
      exact ⟨pos, rfl⟩

/-- Witness for the amended C3: three healthy iterations finish normally. -/
theorem c3_loop_witness :
    ∃ pos', monitorLoop (fun _ => true) (fun _ => c2Env) 3 0 0 = .ok pos' :=
  c3_local_errors_dont_stop_loop (fun _ => true) (fun _ => c2Env)
    (fun _ => ⟨c2content, rfl⟩) (fun _ => rfl) (fun _ => rfl) 3 0 0

/-- Nanoseconds per second: chrono's timestamp precision. -/
def nsPerSec : Int := 1000000000

/-- Nanoseconds in `CDuration::minutes(1)`. -/
def nsPerMinute : Int := 60 * nsPerSec

/-- Nanoseconds in `CDuration::hours(1)`. -/
def nsPerHour : Int := 3600 * nsPerSec

/-- Nanoseconds in `CDuration::days(1)`. -/
def nsPerDay : Int := 86400 * nsPerSec

/-- Numeric value of an ASCII digit character. -/
def digitVal (c : Char) : Nat := c.toNat - 48

/-- Base-10 value of a digit list, most significant first. -/
def natOfDigits (cs : List Char) : Nat :=
  cs.foldl (fun a c => a * 10 + digitVal c) 0

/-- Embedding of Rust `str::parse::<i64>`: optional sign, at least one
digit, only digits, and the value must fit in an `i64`. -/
def parseI64 (cs : List Char) : Option Int :=
  let sd : Bool × List Char :=
    match cs with
    | '+' :: rest => (false, rest)
    | '-' :: rest => (true, rest)
    | _ => (false, cs)
  if sd.2.isEmpty then none
  else if sd.2.all Char.isDigit then
    let v := natOfDigits sd.2
    if sd.1 then
      if v ≤ 9223372036854775808 then some (-(v : Int)) else none
    else
      if v ≤ 9223372036854775807 then some (v : Int) else none
  else none

/-- Embedding of Rust `str::strip_suffix(char)`. -/
def stripSuffixChar (c : Char) (cs : List Char) : Option (List Char) :=
  if cs.getLast? = some c then some cs.dropLast else none

/-- Components of a UTC calendar datetime, as chrono exposes them. -/
structure DtUtc where
  year : Nat
  month : Nat
  day : Nat
  hour : Nat
  minute : Nat
  second : Nat
  nanos : Nat
deriving DecidableEq

/-- Gregorian leap-year test. -/
def leapYear (y : Nat) : Bool :=
  (y % 4 == 0 && !(y % 100 == 0)) || y % 400 == 0

/-- Days in a month of the proleptic Gregorian calendar (0 for an invalid
month number). -/
def daysInMonth (y m : Nat) : Nat :=
  match m with
  | 1 => 31
  | 2 => if leapYear y then 29 else 28
  | 3 => 31
  | 4 => 30
  | 5 => 31
  | 6 => 30
  | 7 => 31
  | 8 => 31
  | 9 => 30
  | 10 => 31
  | 11 => 30
  | 12 => 31
  | _ => 0

/-- Days from 1970-01-01 to the given civil date (standard era-based
calendar arithmetic, as used by chrono's internal date representation). -/
def daysFromCivil (y m d : Nat) : Int :=
  let yi : Int := (y : Int) - (if m ≤ 2 then 1 else 0)
  let era : Int := (if 0 ≤ yi then yi else yi - 399) / 400
  let yoe : Int := yi - era * 400
  let mp : Int := ((m : Int) + 9) % 12
  let doy : Int := (153 * mp + 2) / 5 + (d : Int) - 1
  let doe : Int := yoe * 365 + yoe / 4 - yoe / 100 + doy
  era * 146097 + doe - 719468

/-- Worker for `readDigits`: reads exactly `n` ASCII digits, accumulating
their value. -/
def readDigitsAux : Nat → Nat → List Char → Option (Nat × List Char)
  | acc, 0, cs => some (acc, cs)
  | _, _ + 1, [] => none
  | acc, n + 1, c :: cs =>
    if c.isDigit then readDigitsAux (acc * 10 + digitVal c) n cs else none

/-- Read exactly `n` ASCII digits from the front of the input. -/
def readDigits (n : Nat) (cs : List Char) : Option (Nat × List Char) :=
  readDigitsAux 0 n cs

/-- Consume one expected character. -/
def expectCh (c : Char) : List Char → Option (List Char)
  | [] => none
  | x :: r => if x = c then some r else none

/-- Consume the RFC3339 date/time separator (`T`, `t` or space, as chrono
accepts). -/
def expectT : List Char → Option (List Char)
  | 'T' :: r => some r
  | 't' :: r => some r
  | ' ' :: r => some r
  | _ => none

/-- Consume an RFC3339 `Z`/`z` zulu marker. -/
def expectZ : List Char → Option (List Char)
  | 'Z' :: r => some r
  | 'z' :: r => some r
  | _ => none

/-- Read an RFC3339 fractional-second field (1 to 9 digits after the dot),
scaled to nanoseconds. -/
def readFrac (cs : List Char) : Option (Nat × List Char) :=
  let digits := cs.takeWhile Char.isDigit
  let rest := cs.dropWhile Char.isDigit
  if 1 ≤ digits.length ∧ digits.length ≤ 9 then
    some (natOfDigits digits * 10 ^ (9 - digits.length), rest)
  else none

/-- Read an optional fractional-second field: a dot starts a fraction,
anything else leaves zero nanoseconds. -/
def readOptFrac (cs : List Char) : Option (Nat × List Char) :=
  match cs with
  | '.' :: r => readFrac r
  | _ => some (0, cs)

/-- Parse the date-time part of an RFC3339 string (everything before the
offset), validating field ranges as chrono does. -/
def parseDtBase (cs : List Char) : Option (DtUtc × List Char) := do
  let (y, r1) ← readDigits 4 cs
  let r2 ← expectCh '-' r1
  let (mo, r3) ← readDigits 2 r2
  let r4 ← expectCh '-' r3
  let (d, r5) ← readDigits 2 r4
  let r6 ← expectT r5
  let (hr, r7) ← readDigits 2 r6
  let r8 ← expectCh ':' r7
  let (mi, r9) ← readDigits 2 r8
  let r10 ← expectCh ':' r9
  let (sec, r11) ← readDigits 2 r10
  let fr ← readOptFrac r11
  if 1 ≤ mo ∧ mo ≤ 12 ∧ 1 ≤ d ∧ d ≤ daysInMonth y mo ∧
      hr ≤ 23 ∧ mi ≤ 59 ∧ sec ≤ 60 ∧ fr.1 ≤ 999999999 then
    some (⟨y, mo, d, hr, mi, sec, fr.1⟩, fr.2)
  else none

/-- Parse an RFC3339 numeric offset body `hh:mm` into signed minutes. -/
def parseHhMm (sign : Int) (cs : List Char) : Option (Int × List Char) := do
  let (hh, r1) ← readDigits 2 cs
  let r2 ← expectCh ':' r1
  let (mm, r3) ← readDigits 2 r2
  if hh ≤ 23 ∧ mm ≤ 59 then some (sign * (hh * 60 + mm), r3) else none

/-- Parse an RFC3339 offset: `Z`/`z` or `+hh:mm` / `-hh:mm`. -/
def parseOffMinutes (cs : List Char) : Option (Int × List Char) :=
  match cs with
  | 'Z' :: r => some (0, r)
  | 'z' :: r => some (0, r)
  | '+' :: r => parseHhMm 1 r
  | '-' :: r => parseHhMm (-1) r
  | _ => none

/-- Epoch nanoseconds of a civil datetime at a given offset (minutes east
of UTC): the `with_timezone(&Utc)` conversion. -/
def epochNsOf (dt : DtUtc) (offMinutes : Int) : Int :=
  (daysFromCivil dt.year dt.month dt.day * 86400 +
      ((dt.hour * 3600 + dt.minute * 60 + dt.second : Nat) : Int) -
      offMinutes * 60) * nsPerSec + (dt.nanos : Int)

/-- Embedding of `DateTime::parse_from_rfc3339` followed by
`with_timezone(&Utc)`: the whole input must be one RFC3339 datetime, and
the result is the UTC instant in epoch nanoseconds. -/
def rfc3339ToUtc (cs : List Char) : Option Int := do
  let (dt, r1) ← parseDtBase cs
  let (offMin, r2) ← parseOffMinutes r1
  if r2.isEmpty then some (epochNsOf dt offMin) else none

/-- The largest whole-second magnitude a chrono `TimeDelta` can hold:
`i64::MAX` milliseconds in whole seconds.  `TimeDelta::days/hours/minutes`
panic beyond it. -/
def durationBoundSecs : Int := 9223372036854775

/-- `CDuration::days(n)` (chrono `TimeDelta::days`): the duration in
nanoseconds, or `none` for the panic when `n` days leave the `TimeDelta`
range (which also covers the internal `i64` overflow of `n * 86400`). -/
def duration_days (n : Int) : Option Int :=
  if -durationBoundSecs ≤ n * 86400 ∧ n * 86400 ≤ durationBoundSecs then
    some (n * nsPerDay)
  else none

/-- `CDuration::hours(n)`, with the same panic bound. -/
def duration_hours (n : Int) : Option Int :=
  if -durationBoundSecs ≤ n * 3600 ∧ n * 3600 ≤ durationBoundSecs then
    some (n * nsPerHour)
  else none

/-- `CDuration::minutes(n)`, with the same panic bound. -/
def duration_minutes (n : Int) : Option Int :=
  if -durationBoundSecs ≤ n * 60 ∧ n * 60 ≤ durationBoundSecs then
    some (n * nsPerMinute)
  else none

/-- Epoch nanoseconds of chrono `NaiveDateTime::MIN`
(-262144-01-01T00:00:00, day number -96465658 relative to the epoch). -/
def dtMinNs : Int := -96465658 * 86400 * 1000000000

/-- Epoch nanoseconds of chrono `NaiveDateTime::MAX`
(262143-12-31T23:59:59.999999999, day number 95026601). -/
def dtMaxNs : Int := (95026601 * 86400 + 86399) * 1000000000 + 999999999

/-- `DateTime<Utc> - TimeDelta` (`checked_sub_signed` plus `expect`): the
resulting instant, or `none` for the panic when the result leaves the
`NaiveDateTime` range. -/
def sub_duration (now dur : Int) : Option Int :=
  if dtMinNs ≤ now - dur ∧ now - dur ≤ dtMaxNs then some (now - dur)
  else none

/-- Embedding of `parse_since` (src/main.rs:700-716): `strip_suffix` for
`d`, `h`, `m` in that order, integer prefix parse with `?` propagation,
otherwise the RFC3339 fallback.  The outer `Option` models abnormal
termination: `none` is the chrono panic (a `Duration::days/hours/minutes`
construction or the `Utc::now() - duration` subtraction out of range) —
the process aborts and the function returns nothing. -/
def parse_since (now : Int) (input : List Char) : Option (Except Err Int) :=
  match stripSuffixChar 'd' input with
  | some num =>
    match parseI64 num with
    | some n =>
      match duration_days n with
      | some dur =>
        match sub_duration now dur with
        | some t => some (.ok t)
        | none => none
      | none => none
    | none => some (.error .invalidDuration)
  | none =>
    match stripSuffixChar 'h' input with
    | some num =>
      match parseI64 num with
      | some n =>
        match duration_hours n with
        | some dur =>
          match sub_duration now dur with
          | some t => some (.ok t)
          | none => none
        | none => none
      | none => some (.error .invalidDuration)
    | none =>
      match stripSuffixChar 'm' input with
      | some num =>
        match parseI64 num with
        | some n =>
          match duration_minutes n with
          | some dur =>
            match sub_duration now dur with
            | some t => some (.ok t)
            | none => none
          | none => none
        | none => some (.error .invalidDuration)
      | none =>
        match rfc3339ToUtc input with
        | some t => some (.ok t)
        | none => some (.error .invalidTimestamp)

/-- `duration_days` within the `TimeDelta` bound. -/
theorem duration_days_pos (n : Int) (h1 : -durationBoundSecs ≤ n * 86400)
    (h2 : n * 86400 ≤ durationBoundSecs) :
    duration_days n = some (n * nsPerDay) := by
  unfold duration_days
  rw [if_pos ⟨h1, h2⟩]

/-- `duration_days` panics outside the `TimeDelta` bound. -/
theorem duration_days_neg (n : Int)
    (h : durationBoundSecs < n * 86400 ∨ n * 86400 < -durationBoundSecs) :
    duration_days n = none := by
  unfold duration_days
  rw [if_neg]
  rintro ⟨ha, hb⟩
  rcases h with h | h <;> omega

/-- `duration_hours` within the `TimeDelta` bound. -/
theorem duration_hours_pos (n : Int) (h1 : -durationBoundSecs ≤ n * 3600)
    (h2 : n * 3600 ≤ durationBoundSecs) :
    duration_hours n = some (n * nsPerHour) := by
  unfold duration_hours
  rw [if_pos ⟨h1, h2⟩]

/-- `duration_hours` panics outside the `TimeDelta` bound. -/
theorem duration_hours_neg (n : Int)
    (h : durationBoundSecs < n * 3600 ∨ n * 3600 < -durationBoundSecs) :
    duration_hours n = none := by
  unfold duration_hours
  rw [if_neg]
  rintro ⟨ha, hb⟩
  rcases h with h | h <;> omega

/-- `duration_minutes` within the `TimeDelta` bound. -/
theorem duration_minutes_pos (n : Int) (h1 : -durationBoundSecs ≤ n * 60)
    (h2 : n * 60 ≤ durationBoundSecs) :
    duration_minutes n = some (n * nsPerMinute) := by
  unfold duration_minutes
  rw [if_pos ⟨h1, h2⟩]

/-- `duration_minutes` panics outside the `TimeDelta` bound. -/
theorem duration_minutes_neg (n : Int)
    (h : durationBoundSecs < n * 60 ∨ n * 60 < -durationBoundSecs) :
    duration_minutes n = none := by
  unfold duration_minutes
  rw [if_neg]
  rintro ⟨ha, hb⟩
  rcases h with h | h <;> omega

/-- The subtraction succeeds inside the `NaiveDateTime` range. -/
theorem sub_duration_pos (now dur : Int) (h1 : dtMinNs ≤ now - dur)
    (h2 : now - dur ≤ dtMaxNs) : sub_duration now dur = some (now - dur) := by
  unfold sub_duration
  rw [if_pos ⟨h1, h2⟩]

/-- The subtraction panics outside the `NaiveDateTime` range. -/
theorem sub_duration_neg (now dur : Int)
    (h : now - dur < dtMinNs ∨ dtMaxNs < now - dur) :
    sub_duration now dur = none := by
  unfold sub_duration
  rw [if_neg]
  rintro ⟨ha, hb⟩
  rcases h with h | h <;> omega

/-- `strip_suffix` finds the suffix on a list that ends with it. -/
theorem stripSuffixChar_concat (c : Char) (pre : List Char) :
    stripSuffixChar c (pre ++ [c]) = some pre := by
  simp [stripSuffixChar, List.getLast?_concat, List.dropLast_concat]

/-- `strip_suffix` misses on a list that ends with a different character. -/
theorem stripSuffixChar_concat_ne (c a : Char) (pre : List Char)
    (h : a ≠ c) : stripSuffixChar c (pre ++ [a]) = none := by
  simp [stripSuffixChar, List.getLast?_concat, h]

/-- A list whose last element is not `c` is no concatenation `pre ++ [c]`. -/
theorem ne_concat_of_getLast (c : Char) (cs : List Char)
    (h : cs.getLast? ≠ some c) : ∀ pre, cs ≠ pre ++ [c] := by
  intro pre hEq
  exact h (by rw [hEq, List.getLast?_concat])

/-- `strip_suffix` misses when the input is no concatenation `pre ++ [c]`. -/
theorem stripSuffixChar_eq_none (c : Char) (cs : List Char)
    (h : ∀ pre, cs ≠ pre ++ [c]) : stripSuffixChar c cs = none := by
  rcases List.eq_nil_or_concat cs with rfl | ⟨l, a, rfl⟩
  · simp [stripSuffixChar]
  · rw [List.concat_eq_append] at h ⊢
    by_cases hac : a = c
    · subst hac
      exact absurd rfl (h l)
    · exact stripSuffixChar_concat_ne c a l hac

/-- Counterexample to claim C7 as stated: `9999999999` is a parsable i64
prefix with suffix `d`, yet the program does not return `now - N days` —
`Utc::now() - CDuration::days(9999999999)` leaves chrono's datetime range
and panics (`expect` on `checked_sub_signed`), aborting instead of
returning a value (`none` in the embedding). -/
theorem c7_panic_counterexample :
    parseI64 "9999999999".data = some 9999999999 ∧
    parse_since 0 "9999999999d".data = none ∧
    ¬ parse_since 0 "9999999999d".data =
        some (.ok (0 - 9999999999 * nsPerDay)) := by
  refine ⟨by decide, rfl, ?_⟩
  intro h
  rw [show parse_since 0 "9999999999d".data = none from rfl] at h
  cases h

/-- Amended claim C7: `parse_since` returns `now` minus N
days/hours/minutes for an integer prefix N with suffix `d`/`h`/`m`
provided the duration and the resulting instant stay inside chrono's
`TimeDelta` and `NaiveDateTime` ranges; for a parsable N outside those
ranges the program panics and aborts instead of returning; it fails with
`InvalidDuration` when such a prefix is not a parsable integer; otherwise
it parses the input as RFC3339 converted to UTC, failing with
`InvalidTimestamp` when that parse fails — so `abc` and `7x` both fail;
no other formats are accepted. -/
theorem c7_parse_since_spec (now : Int) (cs : List Char) :
    (∀ pre n, cs = pre ++ ['d'] → parseI64 pre = some n →
        -durationBoundSecs ≤ n * 86400 → n * 86400 ≤ durationBoundSecs →
        dtMinNs ≤ now - n * nsPerDay → now - n * nsPerDay ≤ dtMaxNs →
        parse_since now cs = some (.ok (now - n * nsPerDay))) ∧
    (∀ pre, cs = pre ++ ['d'] → parseI64 pre = none →
        parse_since now cs = some (.error .invalidDuration)) ∧
    (∀ pre n, cs = pre ++ ['d'] → parseI64 pre = some n →
        (durationBoundSecs < n * 86400 ∨ n * 86400 < -durationBoundSecs ∨
         now - n * nsPerDay < dtMinNs ∨ dtMaxNs < now - n * nsPerDay) →
        parse_since now cs = none) ∧
    (∀ pre n, cs = pre ++ ['h'] → parseI64 pre = some n →
        -durationBoundSecs ≤ n * 3600 → n * 3600 ≤ durationBoundSecs →
        dtMinNs ≤ now - n * nsPerHour → now - n * nsPerHour ≤ dtMaxNs →
        parse_since now cs = some (.ok (now - n * nsPerHour))) ∧
    (∀ pre, cs = pre ++ ['h'] → parseI64 pre = none →
        parse_since now cs = some (.error .invalidDuration)) ∧
    (∀ pre n, cs = pre ++ ['h'] → parseI64 pre = some n →
        (durationBoundSecs < n * 3600 ∨ n * 3600 < -durationBoundSecs ∨
         now - n * nsPerHour < dtMinNs ∨ dtMaxNs < now - n * nsPerHour) →
        parse_since now cs = none) ∧
    (∀ pre n, cs = pre ++ ['m'] → parseI64 pre = some n →
        -durationBoundSecs ≤ n * 60 → n * 60 ≤ durationBoundSecs →
        dtMinNs ≤ now - n * nsPerMinute → now - n * nsPerMinute ≤ dtMaxNs →
        parse_since now cs = some (.ok (now - n * nsPerMinute))) ∧
    (∀ pre, cs = pre ++ ['m'] → parseI64 pre = none →
        parse_since now cs = some (.error .invalidDuration)) ∧
    (∀ pre n, cs = pre ++ ['m'] → parseI64 pre = some n →
        (durationBoundSecs < n * 60 ∨ n * 60 < -durationBoundSecs ∨
         now - n * nsPerMinute < dtMinNs ∨ dtMaxNs < now - n * nsPerMinute) →
        parse_since now cs = none) ∧
    ((∀ pre, cs ≠ pre ++ ['d']) → (∀ pre, cs ≠ pre ++ ['h']) →
      (∀ pre, cs ≠ pre ++ ['m']) →
        parse_since now cs = (match rfc3339ToUtc cs with
          | some t => some (.ok t)
          | none => some (.error .invalidTimestamp))) ∧
    parse_since now "abc".data = some (.error .invalidTimestamp) ∧
    parse_since now "7x".data = some (.error .invalidTimestamp) := by
  refine ⟨?_, ?_, ?_, ?_, ?_, ?_, ?_, ?_, ?_, ?_, rfl, rfl⟩
  · intro pre n hcs hp hb1 hb2 hc1 hc2
    subst hcs
    unfold parse_since
    rw [stripSuffixChar_concat]
    simp only [hp, duration_days_pos n hb1 hb2, sub_duration_pos now _ hc1 hc2]
  · intro pre hcs hp
    subst hcs
    unfold parse_since
    rw [stripSuffixChar_concat]
    simp only [hp]
  · intro pre n hcs hp hbad
    subst hcs
    unfold parse_since
    rw [stripSuffixChar_concat]
    by_cases hd1 : -durationBoundSecs ≤ n * 86400 ∧ n * 86400 ≤ durationBoundSecs
    · have hsub : now - n * nsPerDay < dtMinNs ∨ dtMaxNs < now - n * nsPerDay := by
        rcases hbad with h | h | h | h
        · omega
        · omega
        · exact Or.inl h
        · exact Or.inr h
      simp only [hp, duration_days_pos n hd1.1 hd1.2, sub_duration_neg now _ hsub]
    · have hout : durationBoundSecs < n * 86400 ∨ n * 86400 < -durationBoundSecs := by
        rw [not_and_or] at hd1
        rcases hd1 with h | h
        · right
          omega
        · left
          omega
      simp only [hp, duration_days_neg n hout]
  · intro pre n hcs hp hb1 hb2 hc1 hc2
    subst hcs
    unfold parse_since
    rw [stripSuffixChar_concat_ne 'd' 'h' pre (by decide),
      stripSuffixChar_concat]
    simp only [hp, duration_hours_pos n hb1 hb2, sub_duration_pos now _ hc1 hc2]
  · intro pre hcs hp
    subst hcs
    unfold parse_since
    rw [stripSuffixChar_concat_ne 'd' 'h' pre (by decide),
      stripSuffixChar_concat]
    simp only [hp]
  · intro pre n hcs hp hbad
    subst hcs
    unfold parse_since
    rw [stripSuffixChar_concat_ne 'd' 'h' pre (by decide),
      stripSuffixChar_concat]
    by_cases hd1 : -durationBoundSecs ≤ n * 3600 ∧ n * 3600 ≤ durationBoundSecs
    · have hsub : now - n * nsPerHour < dtMinNs ∨ dtMaxNs < now - n * nsPerHour := by
        rcases hbad with h | h | h | h
        · omega
        · omega
        · exact Or.inl h
        · exact Or.inr h
      simp only [hp, duration_hours_pos n hd1.1 hd1.2, sub_duration_neg now _ hsub]
    · have hout : durationBoundSecs < n * 3600 ∨ n * 3600 < -durationBoundSecs := by
        rw [not_and_or] at hd1
        rcases hd1 with h | h
        · right
          omega
        · left
          omega
      simp only [hp, duration_hours_neg n hout]
  · intro pre n hcs hp hb1 hb2 hc1 hc2
    subst hcs
    unfold parse_since
    rw [stripSuffixChar_concat_ne 'd' 'm' pre (by decide),
      stripSuffixChar_concat_ne 'h' 'm' pre (by decide),
      stripSuffixChar_concat]
    simp only [hp, duration_minutes_pos n hb1 hb2,
      sub_duration_pos now _ hc1 hc2]
  · intro pre hcs hp
    subst hcs
    unfold parse_since
    rw [stripSuffixChar_concat_ne 'd' 'm' pre (by decide),
      stripSuffixChar_concat_ne 'h' 'm' pre (by decide),
      stripSuffixChar_concat]
    simp only [hp]
  · intro pre n hcs hp hbad
    subst hcs
    unfold parse_since
    rw [stripSuffixChar_concat_ne 'd' 'm' pre (by decide),
      stripSuffixChar_concat_ne 'h' 'm' pre (by decide),
      stripSuffixChar_concat]
    by_cases hd1 : -durationBoundSecs ≤ n * 60 ∧ n * 60 ≤ durationBoundSecs
    · have hsub : now - n * nsPerMinute < dtMinNs ∨
          dtMaxNs < now - n * nsPerMinute := by
        rcases hbad with h | h | h | h
        · omega
        · omega
        · exact Or.inl h
        · exact Or.inr h
      simp only [hp, duration_minutes_pos n hd1.1 hd1.2,
        sub_duration_neg now _ hsub]
    · have hout : durationBoundSecs < n * 60 ∨ n * 60 < -durationBoundSecs := by
        rw [not_and_or] at hd1
        rcases hd1 with h | h
        · right
          omega
        · left
          omega
      simp only [hp, duration_minutes_neg n hout]
  · intro hd hh hm
    unfold parse_since
    rw [stripSuffixChar_eq_none 'd' cs hd, stripSuffixChar_eq_none 'h' cs hh,
      stripSuffixChar_eq_none 'm' cs hm]

/-- Witness for the amended C7 at concrete inputs: all three in-range
duration units, an unparsable numeric prefix, the panic case, and the
RFC3339 fallback. -/
theorem c7_parse_since_witness :
    parse_since 0 "7d".data = some (.ok (0 - 7 * nsPerDay)) ∧
    parse_since 0 "3h".data = some (.ok (0 - 3 * nsPerHour)) ∧
    parse_since 0 "45m".data = some (.ok (0 - 45 * nsPerMinute)) ∧
    parse_since 0 "xd".data = some (.error .invalidDuration) ∧
    parse_since 0 "200000000000d".data = none ∧
    parse_since 0 "2024-01-02T03:04:05Z".data =
      (match rfc3339ToUtc "2024-01-02T03:04:05Z".data with
        | some t => some (.ok t)
        | none => some (.error .invalidTimestamp)) := by
  refine ⟨?_, ?_, ?_, ?_, ?_, ?_⟩
  · exact (c7_parse_since_spec 0 "7d".data).1 "7".data 7 (by decide)
      (by decide) (by decide) (by decide) (by decide) (by decide)
  · exact (c7_parse_since_spec 0 "3h".data).2.2.2.1 "3".data 3 (by decide)
      (by decide) (by decide) (by decide) (by decide) (by decide)
  · exact (c7_parse_since_spec 0 "45m".data).2.2.2.2.2.2.1 "45".data 45
      (by decide) (by decide) (by decide) (by decide) (by decide) (by decide)
  · exact (c7_parse_since_spec 0 "xd".data).2.1 "x".data (by decide)
      (by decide)
  · exact (c7_parse_since_spec 0 "200000000000d".data).2.2.1
      "200000000000".data 200000000000 (by decide) (by decide)
      (Or.inl (by decide))
  · exact (c7_parse_since_spec 0
        "2024-01-02T03:04:05Z".data).2.2.2.2.2.2.2.2.2.1
      (ne_concat_of_getLast 'd' _ (by decide))
      (ne_concat_of_getLast 'h' _ (by decide))
      (ne_concat_of_getLast 'm' _ (by decide))

/-- The `\x7b` character, kept out of string literals. -/
def lbrace : Char := Char.ofNat 123

/-- The `\x7d` character, kept out of string literals. -/
def rbrace : Char := Char.ofNat 125

/-- ASCII digit character for `n % 10`. -/
def digitCh (n : Nat) : Char :=
  match n % 10 with
  | 0 => '0' | 1 => '1' | 2 => '2' | 3 => '3' | 4 => '4'
  | 5 => '5' | 6 => '6' | 7 => '7' | 8 => '8' | _ => '9'

/-- Lowercase hex digit character for `n % 16`, as serde_json emits. -/
def hexDigitCh (n : Nat) : Char :=
  match n % 16 with
  | 0 => '0' | 1 => '1' | 2 => '2' | 3 => '3' | 4 => '4' | 5 => '5'
  | 6 => '6' | 7 => '7' | 8 => '8' | 9 => '9' | 10 => 'a' | 11 => 'b'
  | 12 => 'c' | 13 => 'd' | 14 => 'e' | _ => 'f'

/-- serde_json's escaping of one character inside a JSON string: quote and
backslash escaped, the common control characters by letter, other control
characters as `\u00xx`, everything else written as-is. -/
def escChar (c : Char) : List Char :=
  if c = '"' then ['\\', '"']
  else if c = '\\' then ['\\', '\\']
  else if c = '\x08' then ['\\', 'b']
  else if c = '\t' then ['\\', 't']
  else if c = '\n' then ['\\', 'n']
  else if c = '\x0c' then ['\\', 'f']
  else if c = '\r' then ['\\', 'r']
  else if c.toNat < 32 then
    ['\\', 'u', '0', '0', hexDigitCh (c.toNat / 16), hexDigitCh (c.toNat % 16)]
  else [c]

/-- serde_json's escaping of a whole string body. -/
def escapeStr : List Char → List Char
  | [] => []
  | c :: rest => escChar c ++ escapeStr rest

/-- Hex digit value accepted by the JSON string parser. -/
def hexVal (c : Char) : Option Nat :=
  if 48 ≤ c.toNat ∧ c.toNat ≤ 57 then some (c.toNat - 48)
  else if 97 ≤ c.toNat ∧ c.toNat ≤ 102 then some (c.toNat - 87)
  else if 65 ≤ c.toNat ∧ c.toNat ≤ 70 then some (c.toNat - 55)
  else none

/-- Prepend a decoded character to a string-parse result. -/
def consMap (c : Char) (r : Option (List Char × List Char)) :
    Option (List Char × List Char) :=
  r.map (fun p => (c :: p.1, p.2))

/-- JSON string-body parser as serde_json reads one: consumes up to and
including the closing quote, decoding escapes, rejecting raw control
characters; returns the decoded body and the remaining input. -/
def parseStrBody : List Char → Option (List Char × List Char)
  | [] => none
  | c :: rest =>
    if c = '"' then some ([], rest)
    else if c = '\\' then
      match rest with
      | [] => none
      | e :: r =>
        if e = '"' then consMap '"' (parseStrBody r)
        else if e = '\\' then consMap '\\' (parseStrBody r)
        else if e = '/' then consMap '/' (parseStrBody r)
        else if e = 'b' then consMap '\x08' (parseStrBody r)
        else if e = 'f' then consMap '\x0c' (parseStrBody r)
        else if e = 'n' then consMap '\n' (parseStrBody r)
        else if e = 'r' then consMap '\r' (parseStrBody r)
        else if e = 't' then consMap '\t' (parseStrBody r)
        else if e = 'u' then
          match r with
          | h1 :: h2 :: h3 :: h4 :: r2 =>
            match hexVal h1, hexVal h2, hexVal h3, hexVal h4 with
            | some a, some b, some c2, some d =>
              consMap (Char.ofNat (((a * 16 + b) * 16 + c2) * 16 + d))
                (parseStrBody r2)
            | _, _, _, _ => none
          | _ => none
        else none
    else if 32 ≤ c.toNat then consMap c (parseStrBody rest)
    else none

/-- `hexVal` decodes the hex digit character `hexDigitCh` produces. -/
theorem hexVal_hexDigitCh (n : Nat) : hexVal (hexDigitCh n) = some (n % 16) := by
  unfold hexDigitCh
  have h : n % 16 < 16 := Nat.mod_lt _ (by omega)
  set m := n % 16 with hm
  interval_cases m <;> decide

/-- `digitCh` always yields an ASCII digit. -/
theorem digitCh_isDigit (n : Nat) : (digitCh n).isDigit = true := by
  unfold digitCh
  have h : n % 10 < 10 := Nat.mod_lt _ (by omega)
  set m := n % 10 with hm
  interval_cases m <;> decide

/-- `digitVal` recovers the digit `digitCh` encodes. -/
theorem digitVal_digitCh (n : Nat) : digitVal (digitCh n) = n % 10 := by
  unfold digitCh
  have h : n % 10 < 10 := Nat.mod_lt _ (by omega)
  set m := n % 10 with hm
  interval_cases m <;> decide

/-- Decoding a `\u00xx` escape produced from two hex digit characters. -/
theorem parseStrBody_u (a b : Nat) (ha : a < 16) (hb : b < 16)
    (r2 : List Char) :
    parseStrBody ('\\' :: 'u' :: '0' :: '0' :: hexDigitCh a ::
      hexDigitCh b :: r2) =
      consMap (Char.ofNat (a * 16 + b)) (parseStrBody r2) := by
  rw [parseStrBody.eq_def]
  simp [hexVal_hexDigitCh, Nat.mod_eq_of_lt ha, Nat.mod_eq_of_lt hb,
    show hexVal '0' = some 0 from rfl]

/-- Unescaping inverts escaping: parsing the escaped body followed by the
closing quote returns the original string and the remaining input. -/
theorem parseStrBody_escape (s rest : List Char) :
    parseStrBody (escapeStr s ++ '"' :: rest) = some (s, rest) := by
  induction s with
  | nil =>
    rw [escapeStr, List.nil_append, parseStrBody.eq_def]
    simp
  | cons c t ih =>
    rw [escapeStr, List.append_assoc]
    by_cases h1 : c = '"'
    · subst h1
      rw [show escChar '"' = ['\\', '"'] from rfl]
      simp only [List.cons_append, List.nil_append]
      rw [parseStrBody.eq_def]
      simp [consMap, ih]
    · by_cases h2 : c = '\\'
      · subst h2
        rw [show escChar '\\' = ['\\', '\\'] from rfl]
        simp only [List.cons_append, List.nil_append]
        rw [parseStrBody.eq_def]
        simp [consMap, ih]
      · by_cases h3 : c = '\x08'
        · subst h3
          rw [show escChar '\x08' = ['\\', 'b'] from rfl]
          simp only [List.cons_append, List.nil_append]
          rw [parseStrBody.eq_def]
          simp [consMap, ih]
        · by_cases h4 : c = '\t'
          · subst h4
            rw [show escChar '\t' = ['\\', 't'] from rfl]
            simp only [List.cons_append, List.nil_append]
            rw [parseStrBody.eq_def]
            simp [consMap, ih]
          · by_cases h5 : c = '\n'
            · subst h5
              rw [show escChar '\n' = ['\\', 'n'] from rfl]
              simp only [List.cons_append, List.nil_append]
              rw [parseStrBody.eq_def]
              simp [consMap, ih]
            · by_cases h6 : c = '\x0c'
              · subst h6
                rw [show escChar '\x0c' = ['\\', 'f'] from rfl]
                simp only [List.cons_append, List.nil_append]
                rw [parseStrBody.eq_def]
                simp [consMap, ih]
              · by_cases h7 : c = '\r'
                · subst h7
                  rw [show escChar '\r' = ['\\', 'r'] from rfl]
                  simp only [List.cons_append, List.nil_append]
                  rw [parseStrBody.eq_def]
                  simp [consMap, ih]
                · by_cases h8 : c.toNat < 32
                  · rw [escChar, if_neg h1, if_neg h2, if_neg h3, if_neg h4,
                      if_neg h5, if_neg h6, if_neg h7, if_pos h8]
                    simp only [List.cons_append, List.nil_append]
                    rw [parseStrBody_u _ _ (by omega) (by omega),
                      show c.toNat / 16 * 16 + c.toNat % 16 = c.toNat by omega,
                      Char.ofNat_toNat, ih]
                    rw [consMap]
                    rfl
                  · rw [escChar, if_neg h1, if_neg h2, if_neg h3, if_neg h4,
                      if_neg h5, if_neg h6, if_neg h7, if_neg h8]
                    simp only [List.cons_append, List.nil_append]
                    rw [parseStrBody.eq_def]
                    simp only [if_neg h1, if_neg h2,
                      if_pos (show 32 ≤ c.toNat by omega)]
                    rw [ih, consMap]
                    rfl

/-- Two-digit zero-padded decimal rendering (`%02`). -/
def pad2 (n : Nat) : List Char := [digitCh (n / 10), digitCh n]

/-- Three-digit zero-padded decimal rendering. -/
def pad3 (n : Nat) : List Char := [digitCh (n / 100), digitCh (n / 10), digitCh n]

/-- Four-digit zero-padded decimal rendering (`%04`, the RFC3339 year). -/
def pad4 (n : Nat) : List Char :=
  [digitCh (n / 1000), digitCh (n / 100), digitCh (n / 10), digitCh n]

/-- Six-digit zero-padded decimal rendering. -/
def pad6 (n : Nat) : List Char := pad3 (n / 1000) ++ pad3 n

/-- Nine-digit zero-padded decimal rendering. -/
def pad9 (n : Nat) : List Char :=
  pad3 (n / 1000000) ++ (pad3 (n / 1000) ++ pad3 n)

/-- chrono `SecondsFormat::AutoSi`: no fraction when zero, else 3, 6 or 9
digits depending on the precision actually present. -/
def renderFrac (ns : Nat) : List Char :=
  if ns = 0 then []
  else if ns % 1000000 = 0 then '.' :: pad3 (ns / 1000000)
  else if ns % 1000 = 0 then '.' :: pad6 (ns / 1000)
  else '.' :: pad9 ns

/-- RFC3339 rendering of the datetime portion before the offset, as chrono
writes it when serializing a `DateTime<Utc>`. -/
def renderDtBase (dt : DtUtc) : List Char :=
  pad4 dt.year ++ ('-' :: (pad2 dt.month ++ ('-' :: (pad2 dt.day ++
    ('T' :: (pad2 dt.hour ++ (':' :: (pad2 dt.minute ++ (':' ::
    (pad2 dt.second ++ renderFrac dt.nanos))))))))))

/-- Full RFC3339 rendering of a UTC datetime with the `Z` suffix. -/
def renderDt (dt : DtUtc) : List Char := renderDtBase dt ++ ['Z']

/-- `readDigitsAux` consumes one digit character. -/
theorem readDigitsAux_step (acc n : Nat) (c : Char) (cs : List Char)
    (h : c.isDigit = true) :
    readDigitsAux acc (n + 1) (c :: cs) =
      readDigitsAux (acc * 10 + digitVal c) n cs := by
  simp [readDigitsAux, h]

/-- `readDigitsAux` with no digits left to read. -/
theorem readDigitsAux_zero (acc : Nat) (cs : List Char) :
    readDigitsAux acc 0 cs = some (acc, cs) := by
  simp [readDigitsAux]

/-- Reading two digits off `pad2` recovers a value below 100. -/
theorem readDigits_pad2 (y : Nat) (r : List Char) (h : y < 100) :
    readDigits 2 (pad2 y ++ r) = some (y, r) := by
  unfold readDigits pad2
  simp only [List.cons_append, List.nil_append]
  rw [show (2 : Nat) = 1 + 1 from rfl,
    readDigitsAux_step _ _ _ _ (digitCh_isDigit _),
    show (1 : Nat) = 0 + 1 from rfl,
    readDigitsAux_step _ _ _ _ (digitCh_isDigit _),
    readDigitsAux_zero]
  simp only [digitVal_digitCh]
  exact congrArg (fun z => some (z, r)) (by omega)

/-- Reading four digits off `pad4` recovers a value below 10000. -/
theorem readDigits_pad4 (y : Nat) (r : List Char) (h : y < 10000) :
    readDigits 4 (pad4 y ++ r) = some (y, r) := by
  unfold readDigits pad4
  simp only [List.cons_append, List.nil_append]
  rw [show (4 : Nat) = 3 + 1 from rfl,
    readDigitsAux_step _ _ _ _ (digitCh_isDigit _),
    show (3 : Nat) = 2 + 1 from rfl,
    readDigitsAux_step _ _ _ _ (digitCh_isDigit _),
    show (2 : Nat) = 1 + 1 from rfl,
    readDigitsAux_step _ _ _ _ (digitCh_isDigit _),
    show (1 : Nat) = 0 + 1 from rfl,
    readDigitsAux_step _ _ _ _ (digitCh_isDigit _),
    readDigitsAux_zero]
  simp only [digitVal_digitCh]
  exact congrArg (fun z => some (z, r)) (by omega)

/-- Folding the digit accumulator over `pad3`. -/
theorem foldl_pad3 (acc m : Nat) :
    (pad3 m).foldl (fun a c => a * 10 + digitVal c) acc =
      acc * 1000 + m % 1000 := by
  simp only [pad3, List.foldl_cons, List.foldl_nil, digitVal_digitCh]
  omega

/-- `natOfDigits` over `pad3`. -/
theorem natOfDigits_pad3 (m : Nat) : natOfDigits (pad3 m) = m % 1000 := by
  unfold natOfDigits
  rw [foldl_pad3]
  omega

/-- `natOfDigits` over `pad6`. -/
theorem natOfDigits_pad6 (m : Nat) (h : m < 1000000) :
    natOfDigits (pad6 m) = m := by
  unfold natOfDigits pad6
  rw [List.foldl_append, foldl_pad3, foldl_pad3]
  omega

/-- `natOfDigits` over `pad9`. -/
theorem natOfDigits_pad9 (m : Nat) (h : m < 1000000000) :
    natOfDigits (pad9 m) = m := by
  unfold natOfDigits pad9
  rw [List.foldl_append, List.foldl_append, foldl_pad3, foldl_pad3, foldl_pad3]
  omega

/-- Every character of `pad3` is a digit. -/
theorem pad3_digits (m : Nat) : ∀ c ∈ pad3 m, c.isDigit = true := by
  intro c hc
  simp only [pad3, List.mem_cons, List.not_mem_nil, or_false] at hc
  rcases hc with rfl | rfl | rfl <;> exact digitCh_isDigit _

/-- Every character of `pad6` is a digit. -/
theorem pad6_digits (m : Nat) : ∀ c ∈ pad6 m, c.isDigit = true := by
  intro c hc
  rcases List.mem_append.mp hc with h | h
  · exact pad3_digits _ c h
  · exact pad3_digits _ c h

/-- Every character of `pad9` is a digit. -/
theorem pad9_digits (m : Nat) : ∀ c ∈ pad9 m, c.isDigit = true := by
  intro c hc
  rcases List.mem_append.mp hc with h | h
  · exact pad3_digits _ c h
  · rcases List.mem_append.mp h with h2 | h2
    · exact pad3_digits _ c h2
    · exact pad3_digits _ c h2

/-- `takeWhile isDigit` stops exactly at a non-digit boundary character. -/
theorem takeWhile_digits (l : List Char) (hl : ∀ c ∈ l, c.isDigit = true)
    (z : Char) (hz : z.isDigit = false) (rest : List Char) :
    (l ++ z :: rest).takeWhile Char.isDigit = l := by
  induction l with
  | nil =>
    rw [List.nil_append, List.takeWhile_cons, hz]
    simp
  | cons c t ih =>
    rw [List.cons_append, List.takeWhile_cons, hl c (by simp)]
    simp only [ite_true]
    rw [ih (fun c hc => hl c (by simp [hc]))]

/-- `dropWhile isDigit` drops exactly to a non-digit boundary character. -/
theorem dropWhile_digits (l : List Char) (hl : ∀ c ∈ l, c.isDigit = true)
    (z : Char) (hz : z.isDigit = false) (rest : List Char) :
    (l ++ z :: rest).dropWhile Char.isDigit = z :: rest := by
  induction l with
  | nil =>
    rw [List.nil_append, List.dropWhile_cons, hz]
    simp
  | cons c t ih =>
    rw [List.cons_append, List.dropWhile_cons, hl c (by simp)]
    simp only [ite_true]
    exact ih (fun c hc => hl c (by simp [hc]))

/-- Reading a rendered 3-digit fraction back as nanoseconds. -/
theorem readFrac_pad3 (m : Nat) (h : m < 1000) (rest : List Char) :
    readFrac (pad3 m ++ 'Z' :: rest) = some (m * 1000000, 'Z' :: rest) := by
  unfold readFrac
  rw [takeWhile_digits _ (pad3_digits m) 'Z' rfl,
    dropWhile_digits _ (pad3_digits m) 'Z' rfl]
  rw [if_pos (by simp [pad3])]
  rw [natOfDigits_pad3, Nat.mod_eq_of_lt h]
  norm_num [pad3]

/-- Reading a rendered 6-digit fraction back as nanoseconds. -/
theorem readFrac_pad6 (m : Nat) (h : m < 1000000) (rest : List Char) :
    readFrac (pad6 m ++ 'Z' :: rest) = some (m * 1000, 'Z' :: rest) := by
  unfold readFrac
  rw [takeWhile_digits _ (pad6_digits m) 'Z' rfl,
    dropWhile_digits _ (pad6_digits m) 'Z' rfl]
  rw [if_pos (by simp [pad6, pad3])]
  rw [natOfDigits_pad6 m h]
  norm_num [pad6, pad3]

/-- Reading a rendered 9-digit fraction back as nanoseconds. -/
theorem readFrac_pad9 (m : Nat) (h : m < 1000000000) (rest : List Char) :
    readFrac (pad9 m ++ 'Z' :: rest) = some (m, 'Z' :: rest) := by
  unfold readFrac
  rw [takeWhile_digits _ (pad9_digits m) 'Z' rfl,
    dropWhile_digits _ (pad9_digits m) 'Z' rfl]
  rw [if_pos (by simp [pad9, pad3])]
  rw [natOfDigits_pad9 m h]
  norm_num [pad9, pad3]

/-- The calendar-validity envelope of a chrono `DateTime<Utc>` with no leap
second in flight: exactly the states `SummaryState` can hold. -/
def validDt (d : DtUtc) : Prop :=
  d.year < 10000 ∧ 1 ≤ d.month ∧ d.month ≤ 12 ∧ 1 ≤ d.day ∧
  d.day ≤ daysInMonth d.year d.month ∧ d.hour ≤ 23 ∧ d.minute ≤ 59 ∧
  d.second ≤ 59 ∧ d.nanos ≤ 999999999

instance (d : DtUtc) : Decidable (validDt d) := by
  unfold validDt
  infer_instance

/-- `expectCh` consumes the character it expects. -/
theorem expectCh_self (c : Char) (r : List Char) :
    expectCh c (c :: r) = some r := by
  simp [expectCh]

/-- `expectT` consumes an uppercase `T`. -/
theorem expectT_T (r : List Char) : expectT ('T' :: r) = some r := rfl

/-- Every month length is at most 31. -/
theorem daysInMonth_le (y m : Nat) : daysInMonth y m ≤ 31 := by
  unfold daysInMonth
  split <;> (try split) <;> omega

/-- `readOptFrac` reads nothing when the fraction is absent. -/
theorem readOptFrac_Z (rest : List Char) :
    readOptFrac ('Z' :: rest) = some (0, 'Z' :: rest) := rfl

/-- `readOptFrac` reads a fraction introduced by a dot. -/
theorem readOptFrac_dot (r : List Char) :
    readOptFrac ('.' :: r) = readFrac r := rfl

/-- `expectZ` consumes an uppercase `Z`. -/
theorem expectZ_Z (r : List Char) : expectZ ('Z' :: r) = some r := rfl

set_option maxHeartbeats 2000000 in
/-- Parsing the rendered datetime body recovers the original components. -/
theorem parseDtBase_render (dt : DtUtc) (rest : List Char)
    (hv : validDt dt) :
    parseDtBase (renderDtBase dt ++ 'Z' :: rest) = some (dt, 'Z' :: rest) := by
  obtain ⟨y, mo, d, hr, mi, sec, ns⟩ := dt
  have h1 : y < 10000 := hv.1
  have h2 : 1 ≤ mo := hv.2.1
  have h3 : mo ≤ 12 := hv.2.2.1
  have h4 : 1 ≤ d := hv.2.2.2.1
  have h5 : d ≤ daysInMonth y mo := hv.2.2.2.2.1
  have h6 : hr ≤ 23 := hv.2.2.2.2.2.1
  have h7 : mi ≤ 59 := hv.2.2.2.2.2.2.1
  have h8 : sec ≤ 59 := hv.2.2.2.2.2.2.2.1
  have h9 : ns ≤ 999999999 := hv.2.2.2.2.2.2.2.2
  have hdm : daysInMonth y mo ≤ 31 := daysInMonth_le y mo
  clear hv
  unfold renderDtBase parseDtBase
  simp only [List.append_assoc, List.cons_append]
  rw [readDigits_pad4 y _ (by omega)]
  simp only [Option.bind_eq_bind, Option.some_bind]
  rw [expectCh_self]
  simp only [Option.bind_eq_bind, Option.some_bind]
  rw [readDigits_pad2 mo _ (by omega)]
  simp only [Option.bind_eq_bind, Option.some_bind]
  rw [expectCh_self]
  simp only [Option.bind_eq_bind, Option.some_bind]
  rw [readDigits_pad2 d _ (by omega)]
  simp only [Option.bind_eq_bind, Option.some_bind]
  rw [expectT_T]
  simp only [Option.bind_eq_bind, Option.some_bind]
  rw [readDigits_pad2 hr _ (by omega)]
  simp only [Option.bind_eq_bind, Option.some_bind]
  rw [expectCh_self]
  simp only [Option.bind_eq_bind, Option.some_bind]
  rw [readDigits_pad2 mi _ (by omega)]
  simp only [Option.bind_eq_bind, Option.some_bind]
  rw [expectCh_self]
  simp only [Option.bind_eq_bind, Option.some_bind]
  rw [readDigits_pad2 sec _ (by omega)]
  simp only [Option.bind_eq_bind, Option.some_bind]
  by_cases h0 : ns = 0
  · subst h0
    unfold renderFrac
    rw [if_pos rfl]
    simp only [List.nil_append]
    rw [readOptFrac_Z]
    simp only [Option.bind_eq_bind, Option.some_bind]
    rw [if_pos (show _ ∧ _ from ⟨h2, h3, h4, h5, h6, h7, by omega, by omega⟩)]
  · unfold renderFrac
    rw [if_neg h0]
    by_cases hm6 : ns % 1000000 = 0
    · rw [if_pos hm6]
      simp only [List.cons_append, List.append_assoc]
      rw [readOptFrac_dot, readFrac_pad3 _ (by omega) rest]
      simp only [Option.bind_eq_bind, Option.some_bind]
      rw [show ns / 1000000 * 1000000 = ns by omega]
      rw [if_pos (show _ ∧ _ from ⟨h2, h3, h4, h5, h6, h7, by omega, by omega⟩)]
    · rw [if_neg hm6]
      by_cases hm3 : ns % 1000 = 0
      · rw [if_pos hm3]
        simp only [List.cons_append, List.append_assoc]
        rw [readOptFrac_dot, readFrac_pad6 _ (by omega) rest]
        simp only [Option.bind_eq_bind, Option.some_bind]
        rw [show ns / 1000 * 1000 = ns by omega]
        rw [if_pos (show _ ∧ _ from ⟨h2, h3, h4, h5, h6, h7, by omega, by omega⟩)]
      · rw [if_neg hm3]
        simp only [List.cons_append, List.append_assoc]
        rw [readOptFrac_dot, readFrac_pad9 _ (by omega) rest]
        simp only [Option.bind_eq_bind, Option.some_bind]
        rw [if_pos (show _ ∧ _ from ⟨h2, h3, h4, h5, h6, h7, by omega, by omega⟩)]

/-- JSON whitespace as serde_json skips it between tokens. -/
def isJsonWs (c : Char) : Bool :=
  c = ' ' || c = '\t' || c = '\n' || c = '\r'

/-- Skip insignificant whitespace. -/
def skipWs (cs : List Char) : List Char := cs.dropWhile isJsonWs

/-- Consume an expected literal token character by character. -/
def expectLit : List Char → List Char → Option (List Char)
  | [], cs => some cs
  | _ :: _, [] => none
  | l :: ls, c :: cs => if c = l then expectLit ls cs else none

/-- The Rolling Summary State record `SummaryState` (src/main.rs:360-364):
`text` plus the `updated` timestamp. -/
structure SummaryState where
  text : String
  updated : DtUtc
deriving DecidableEq

/-- `SummaryState::default()`: empty text at the Unix epoch. -/
def summaryDefault : SummaryState := ⟨"", ⟨1970, 1, 1, 0, 0, 0, 0⟩⟩

/-- The serialized `"text"` key. -/
def textKey : List Char := ['"', 't', 'e', 'x', 't', '"']

/-- The serialized `"updated"` key. -/
def updatedKey : List Char := ['"', 'u', 'p', 'd', 'a', 't', 'e', 'd', '"']

/-- The exact byte content `serde_json::to_vec_pretty` produces for a
`SummaryState`: the two fields in declaration order, two-space indent,
string values escaped, timestamp in RFC3339 with `Z`. -/
def renderSummaryRaw (t : List Char) (dt : DtUtc) : List Char :=
  lbrace :: '\n' :: ' ' :: ' ' :: (textKey ++ (':' :: ' ' :: '"' ::
    (escapeStr t ++ ('"' :: ',' :: '\n' :: ' ' :: ' ' ::
    (updatedKey ++ (':' :: ' ' :: '"' ::
    (renderDt dt ++ ('"' :: '\n' :: [rbrace]))))))))

/-- `SummaryState::save` (src/main.rs:375-381): the bytes written to the
temporary file and renamed over the canonical path. -/
def SummaryState.save (s : SummaryState) : List Char :=
  renderSummaryRaw s.text.data s.updated

/-- Parse a JSON string holding an RFC3339 UTC timestamp, consuming the
closing quote. -/
def parseDtString (cs : List Char) : Option (DtUtc × List Char) := do
  let (dt, r1) ← parseDtBase cs
  let r2 ← expectZ r1
  let r3 ← expectCh '"' r2
  some (dt, r3)

/-- serde_json deserialization of a `SummaryState` object in the written
field order, whitespace-tolerant, requiring the whole input be consumed. -/
def parseSummary (cs : List Char) : Option SummaryState := do
  let r1 ← expectCh lbrace (skipWs cs)
  let r2 ← expectLit textKey (skipWs r1)
  let r3 ← expectCh ':' (skipWs r2)
  let r4 ← expectCh '"' (skipWs r3)
  let (t, r5) ← parseStrBody r4
  let r6 ← expectCh ',' (skipWs r5)
  let r7 ← expectLit updatedKey (skipWs r6)
  let r8 ← expectCh ':' (skipWs r7)
  let r9 ← expectCh '"' (skipWs r8)
  let (dt, r10) ← parseDtString r9
  let r11 ← expectCh rbrace (skipWs r10)
  if (skipWs r11).isEmpty then some ⟨String.mk t, dt⟩ else none

/-- `SummaryState::load` (src/main.rs:367-373): read the file and
deserialize, falling back to the default on any failure, including a
missing file. -/
def SummaryState.load (file : Option (List Char)) : SummaryState :=
  match file with
  | none => summaryDefault
  | some cs => (parseSummary cs).getD summaryDefault

/-- `skipWs` passes over a whitespace character. -/
theorem skipWs_cons_ws (c : Char) (h : isJsonWs c = true) (cs : List Char) :
    skipWs (c :: cs) = skipWs cs := by
  simp [skipWs, List.dropWhile_cons, h]

/-- `skipWs` stops at a non-whitespace character. -/
theorem skipWs_cons_not (c : Char) (h : isJsonWs c = false) (cs : List Char) :
    skipWs (c :: cs) = c :: cs := by
  simp [skipWs, List.dropWhile_cons, h]

/-- `skipWs` is the identity in front of the `"text"` key. -/
theorem skipWs_textKey (x : List Char) : skipWs (textKey ++ x) = textKey ++ x := by
  rw [textKey]
  exact skipWs_cons_not '"' rfl _

/-- `skipWs` is the identity in front of the `"updated"` key. -/
theorem skipWs_updatedKey (x : List Char) :
    skipWs (updatedKey ++ x) = updatedKey ++ x := by
  rw [updatedKey]
  exact skipWs_cons_not '"' rfl _

/-- `expectLit` consumes exactly the literal it expects. -/
theorem expectLit_self (l r : List Char) : expectLit l (l ++ r) = some r := by
  induction l with
  | nil => simp [expectLit]
  | cons c t ih => simp [expectLit, ih]

/-- Parsing the rendered timestamp string recovers the components. -/
theorem parseDtString_render (dt : DtUtc) (rest : List Char)
    (hv : validDt dt) :
    parseDtString (renderDt dt ++ '"' :: rest) = some (dt, rest) := by
  unfold parseDtString renderDt
  simp only [List.append_assoc, List.cons_append, List.nil_append]
  rw [parseDtBase_render dt _ hv]
  simp only [Option.bind_eq_bind, Option.some_bind]
  rw [expectZ_Z]
  simp only [Option.bind_eq_bind, Option.some_bind]
  rw [expectCh_self]
  simp only [Option.bind_eq_bind, Option.some_bind]

/-- Parsing the rendered summary object recovers text and timestamp. -/
theorem parseSummary_render (t : List Char) (dt : DtUtc) (hv : validDt dt) :
    parseSummary (renderSummaryRaw t dt) = some ⟨String.mk t, dt⟩ := by
  unfold parseSummary renderSummaryRaw
  rw [skipWs_cons_not lbrace rfl, expectCh_self]
  simp only [Option.bind_eq_bind, Option.some_bind]
  rw [skipWs_cons_ws '\n' rfl, skipWs_cons_ws ' ' rfl, skipWs_cons_ws ' ' rfl,
    skipWs_textKey, expectLit_self]
  simp only [Option.bind_eq_bind, Option.some_bind]
  rw [skipWs_cons_not ':' rfl, expectCh_self]
  simp only [Option.bind_eq_bind, Option.some_bind]
  rw [skipWs_cons_ws ' ' rfl, skipWs_cons_not '"' rfl, expectCh_self]
  simp only [Option.bind_eq_bind, Option.some_bind]
  rw [parseStrBody_escape]
  simp only [Option.bind_eq_bind, Option.some_bind]
  rw [skipWs_cons_not ',' rfl, expectCh_self]
  simp only [Option.bind_eq_bind, Option.some_bind]
  rw [skipWs_cons_ws '\n' rfl, skipWs_cons_ws ' ' rfl, skipWs_cons_ws ' ' rfl,
    skipWs_updatedKey, expectLit_self]
  simp only [Option.bind_eq_bind, Option.some_bind]
  rw [skipWs_cons_not ':' rfl, expectCh_self]
  simp only [Option.bind_eq_bind, Option.some_bind]
  rw [skipWs_cons_ws ' ' rfl, skipWs_cons_not '"' rfl, expectCh_self]
  simp only [Option.bind_eq_bind, Option.some_bind]
  rw [parseDtString_render dt _ hv]
  simp only [Option.bind_eq_bind, Option.some_bind]
  rw [skipWs_cons_ws '\n' rfl, skipWs_cons_not rbrace rfl, expectCh_self]
  simp only [Option.bind_eq_bind, Option.some_bind]
  rw [show skipWs [] = [] from rfl]
  simp

/-- Claim C9: saving a valid Summary State and loading it back returns a
state equal to the original — load after save is the identity on valid
states. -/
theorem c9_save_load_roundtrip (s : SummaryState) (hv : validDt s.updated) :
    SummaryState.load (some (SummaryState.save s)) = s := by
  have h := parseSummary_render s.text.data s.updated hv
  show (parseSummary (renderSummaryRaw s.text.data s.updated)).getD
    summaryDefault = s
  rw [h]
  rfl

/-- A concrete state exercising escapes and a fractional timestamp. -/
def c9state : SummaryState :=
  ⟨"key patterns: \"shopping\"\nand research", ⟨2024, 6, 1, 12, 34, 56, 789000000⟩⟩

/-- Witness for C9 at a concrete valid state. -/
theorem c9_save_load_witness :
    validDt c9state.updated ∧
    SummaryState.load (some (SummaryState.save c9state)) = c9state :=
  ⟨by decide, c9_save_load_roundtrip c9state (by decide)⟩

/-- One record of the Event Log Store (`LogEntry`, src/main.rs:111-115):
a URL and its UTC timestamp, the latter as epoch nanoseconds. -/
structure LogEntry where
  url : List Char
  ts : Int
deriving DecidableEq

/-- The serialized `"url"` key. -/
def urlKey : List Char := ['"', 'u', 'r', 'l', '"']

/-- The serialized `"ts"` key. -/
def tsKey : List Char := ['"', 't', 's', '"']

/-- serde_json deserialization of one `LogEntry` store line in the written
field order: `serde_json::from_str::<LogEntry>` on the compact object
`append_log` writes, with the timestamp string parsed as RFC3339. -/
def parseLogEntry (cs : List Char) : Option LogEntry := do
  let r1 ← expectCh lbrace (skipWs cs)
  let r2 ← expectLit urlKey (skipWs r1)
  let r3 ← expectCh ':' (skipWs r2)
  let r4 ← expectCh '"' (skipWs r3)
  let (u, r5) ← parseStrBody r4
  let r6 ← expectCh ',' (skipWs r5)
  let r7 ← expectLit tsKey (skipWs r6)
  let r8 ← expectCh ':' (skipWs r7)
  let r9 ← expectCh '"' (skipWs r8)
  let (tstr, r10) ← parseStrBody r9
  let t ← rfc3339ToUtc tstr
  let r11 ← expectCh rbrace (skipWs r10)
  if (skipWs r11).isEmpty then some ⟨u, t⟩ else none

/-- The events of the store that match a cutoff, in append order: parsable
lines with `ts >= cutoff`, projected to their URLs.  This is the reference
result both readers are compared against. -/
def matchingUrls (cutoff : Int) (lines : List (List Char)) : List (List Char) :=
  (((lines.filterMap parseLogEntry).filter
    (fun e => decide (cutoff ≤ e.ts))).map LogEntry.url)

/-- Worker for the `run_analyze` read loop (src/main.rs:609-624): skip
malformed lines with only a warning (`continue`, which also skips the cap
check), collect URLs with `ts >= start`, and break as soon as
`items.len() >= max_items` after a successfully parsed line. -/
def run_analyze_items_aux (start : Int) (maxItems : Nat)
    (acc : List (List Char)) : List (List Char) → List (List Char)
  | [] => acc.reverse
  | line :: rest =>
    match parseLogEntry line with
    | none => run_analyze_items_aux start maxItems acc rest
    | some e =>
      let acc' := if start ≤ e.ts then e.url :: acc else acc
      if maxItems ≤ acc'.length then acc'.reverse
      else run_analyze_items_aux start maxItems acc' rest

/-- The items `run_analyze` collects from the store lines. -/
def run_analyze_items (start : Int) (maxItems : Nat)
    (lines : List (List Char)) : List (List Char) :=
  run_analyze_items_aux start maxItems [] lines

/-- `matchingUrls` ignores a malformed line. -/
theorem matchingUrls_cons_none (cutoff : Int) (line : List Char)
    (rest : List (List Char)) (hp : parseLogEntry line = none) :
    matchingUrls cutoff (line :: rest) = matchingUrls cutoff rest := by
  simp [matchingUrls, List.filterMap_cons, hp]

/-- `matchingUrls` keeps a parsed line at or after the cutoff. -/
theorem matchingUrls_cons_pos (cutoff : Int) (line : List Char)
    (rest : List (List Char)) (e : LogEntry)
    (hp : parseLogEntry line = some e) (hm : cutoff ≤ e.ts) :
    matchingUrls cutoff (line :: rest) = e.url :: matchingUrls cutoff rest := by
  simp [matchingUrls, List.filterMap_cons, hp, List.filter_cons, hm]

/-- `matchingUrls` drops a parsed line before the cutoff. -/
theorem matchingUrls_cons_neg (cutoff : Int) (line : List Char)
    (rest : List (List Char)) (e : LogEntry)
    (hp : parseLogEntry line = some e) (hm : ¬ cutoff ≤ e.ts) :
    matchingUrls cutoff (line :: rest) = matchingUrls cutoff rest := by
  simp [matchingUrls, List.filterMap_cons, hp, List.filter_cons, hm]

/-- The collection loop of `run_analyze` returns the first
`maxItems - acc.length` matches after the already collected prefix. -/
theorem run_analyze_items_aux_spec (start : Int) (k : Nat)
    (lines : List (List Char)) :
    ∀ acc : List (List Char), acc.length < k →
    run_analyze_items_aux start k acc lines =
      acc.reverse ++ (matchingUrls start lines).take (k - acc.length) := by
  induction lines with
  | nil =>
    intro acc hlt
    simp [run_analyze_items_aux, matchingUrls]
  | cons line rest ih =>
    intro acc hlt
    cases hp : parseLogEntry line with
    | none =>
      simp only [run_analyze_items_aux, hp]
      rw [ih acc hlt, matchingUrls_cons_none start line rest hp]
    | some e =>
      by_cases hm : start ≤ e.ts
      · simp only [run_analyze_items_aux, hp]
        rw [if_pos hm, matchingUrls_cons_pos start line rest e hp hm]
        by_cases hfull : k ≤ (e.url :: acc).length
        · rw [if_pos hfull]
          have hkk : k - acc.length = 1 := by
            simp only [List.length_cons] at hfull
            omega
          rw [hkk]
          simp
        · rw [if_neg hfull]
          simp only [List.length_cons] at hfull
          rw [ih (e.url :: acc) (by simp only [List.length_cons]; omega)]
          have hkk : k - acc.length = (k - (e.url :: acc).length) + 1 := by
            simp only [List.length_cons]
            omega
          rw [hkk, List.take_succ_cons]
          simp
      · simp only [run_analyze_items_aux, hp]
        rw [if_neg hm]
        have hfull : ¬ k ≤ acc.length := by omega
        rw [if_neg hfull, ih acc hlt,
          matchingUrls_cons_neg start line rest e hp hm]

/-- Amended claim C6: for every cutoff and every limit of at least 1, the
`run_analyze` scan returns exactly the first `limit` matching records in
append order — every event with `ts >= cutoff` appears until the limit is
reached, none before the cutoff appears, malformed lines are skipped, and
the result has at most `limit` entries (earliest matches kept).  With
limit 0 the cap can be exceeded (see the counterexample). -/
theorem c6_read_since_spec (start : Int) (k : Nat)
    (lines : List (List Char)) (hk : 1 ≤ k) :
    run_analyze_items start k lines = (matchingUrls start lines).take k ∧
    (run_analyze_items start k lines).length ≤ k := by
  have h := run_analyze_items_aux_spec start k lines []
    (by simp only [List.length_nil]; omega)
  unfold run_analyze_items
  rw [h]
  simp only [List.reverse_nil, List.nil_append, List.length_nil,
    Nat.sub_zero]
  refine ⟨trivial, ?_⟩
  rw [List.length_take]
  omega

/-- A parsable store line used by the C6 witness and counterexample. -/
def c6line : List Char :=
  "\x7b\"url\":\"http://a.example/\",\"ts\":\"2024-01-02T03:04:05Z\"\x7d".data

/-- A store line with a timestamp before any positive cutoff. -/
def c6lineOld : List Char :=
  "\x7b\"url\":\"http://old.example/\",\"ts\":\"1970-01-01T00:00:01Z\"\x7d".data

/-- Witness for the amended C6 on a concrete store: one old event, one
malformed line, two new events, limit 1. -/
theorem c6_read_since_witness :
    run_analyze_items 1000000000000000000 1
        [c6lineOld, "garbage".data, c6line, c6line] =
      (matchingUrls 1000000000000000000
        [c6lineOld, "garbage".data, c6line, c6line]).take 1 ∧
    (run_analyze_items 1000000000000000000 1
        [c6lineOld, "garbage".data, c6line, c6line]).length ≤ 1 :=
  c6_read_since_spec 1000000000000000000 1
    [c6lineOld, "garbage".data, c6line, c6line] (by omega)

/-- Counterexample to claim C6 as stated for every limit: with limit 0 the
cap is checked only after a successful parse-and-push, so one matching
record is still returned — more than the limit. -/
theorem c6_limit_zero_counterexample :
    (run_analyze_items 0 0 [c6line]).length = 1 ∧
    ¬ ((run_analyze_items 0 0 [c6line]).length ≤ 0) := by
  constructor
  · decide
  · decide

/-- The collection loop of `ambient_loop` (src/main.rs:517-531): every
parsable line with `ts >= cutoff` is pushed — there is no cap of any
kind. -/
def ambient_new_items (cutoff : Int) : List (List Char) → List (List Char)
  | [] => []
  | line :: rest =>
    match parseLogEntry line with
    | some e =>
      if cutoff ≤ e.ts then e.url :: ambient_new_items cutoff rest
      else ambient_new_items cutoff rest
    | none => ambient_new_items cutoff rest

/-- Amended claim C4: on an Ambient Scheduler firing, the batch passed to
the Summarization Orchestrator is the whole set of events with timestamp
at-or-after the cutoff — `ambient_loop` reads the store directly with no
`max_items` cap (no such parameter exists in ambient mode). -/
theorem c4_ambient_reads_all (cutoff : Int) (lines : List (List Char)) :
    ambient_new_items cutoff lines = matchingUrls cutoff lines := by
  induction lines with
  | nil => simp [ambient_new_items, matchingUrls]
  | cons line rest ih =>
    cases hp : parseLogEntry line with
    | none =>
      simp only [ambient_new_items, hp]
      rw [ih, matchingUrls_cons_none cutoff line rest hp]
    | some e =>
      by_cases hm : cutoff ≤ e.ts
      · simp only [ambient_new_items, hp]
        rw [if_pos hm, ih, matchingUrls_cons_pos cutoff line rest e hp hm]
      · simp only [ambient_new_items, hp]
        rw [if_neg hm, ih, matchingUrls_cons_neg cutoff line rest e hp hm]

/-- A parsable store line used only by the C4 counterexample. -/
def c4line : List Char :=
  "\x7b\"url\":\"http://b.example/\",\"ts\":\"2024-01-02T03:04:05Z\"\x7d".data

/-- The timestamp `c4line` parses to. -/
def c4ts : Int := epochNsOf ⟨2024, 1, 2, 3, 4, 5, 0⟩ 0

/-- `ambient_new_items` maps a replicated matching line to its URLs,
one per copy. -/
theorem ambient_new_items_replicate (cutoff : Int) (line : List Char)
    (e : LogEntry) (hp : parseLogEntry line = some e) (hm : cutoff ≤ e.ts) :
    ∀ n, ambient_new_items cutoff (List.replicate n line) =
      List.replicate n e.url := by
  intro n
  induction n with
  | zero => simp [ambient_new_items]
  | succ m ih =>
    rw [List.replicate_succ]
    simp only [ambient_new_items, hp]
    rw [if_pos hm, ih, List.replicate_succ]

/-- Counterexample to claim C4: a store holding 501 events inside the
window makes the ambient batch hold 501 URLs, exceeding the documented
`max_items` safety cap of 500 — no cap is applied in the ambient loop. -/
theorem c4_cap_counterexample :
    (ambient_new_items 0 (List.replicate 501 c4line)).length = 501 ∧
    ¬ ((ambient_new_items 0 (List.replicate 501 c4line)).length ≤ 500) := by
  have hp : parseLogEntry c4line = some ⟨"http://b.example/".data, c4ts⟩ := by
    decide
  have hm : (0 : Int) ≤ c4ts := by decide
  rw [ambient_new_items_replicate 0 c4line _ hp hm 501]
  constructor
  · rw [List.length_replicate]
  · rw [List.length_replicate]
    omega

/-- One tool invocation returned by the model (`tool_call` fields used by
`summarize_with_llm`). -/
structure ToolCall where
  fnName : String
  arguments : String
  id : String

/-- The parts of the first choice of a chat completion response the code
reads: optional text content and optional tool calls. -/
structure ChatResponse where
  content : Option String
  toolCalls : Option (List ToolCall)

/-- A chat message as the code constructs them. -/
inductive Msg where
  | system (content : String)
  | user (content : String)
  | toolResult (content : String) (id : String)

/-- Oracle record for one `summarize_with_llm` call: the network and
serde answer its fallible steps.  `parseJsonArgs` stands for
`serde_json::from_str` on the tool-call arguments followed by the
`args.get("url").and_then(as_str)` lookup: an `error` is non-JSON
arguments, `ok none` is JSON without a string `url` field. -/
structure LlmEnv where
  chat1 : Except Err ChatResponse
  parseJsonArgs : String → Except Err (Option String)
  fetch : String → Except Err String
  chat2 : List Msg → Except Err ChatResponse

/-- The previous-summary slot of the system prompt: an explicit marker when
empty (`previous.is_empty()`), the text itself otherwise. -/
def promptPrevious (previous : String) : String :=
  if previous = "" then "None - this is the first analysis." else previous

/-- The system-role instruction (condensed wording; the empty-previous
marker is the behavior that matters). -/
def systemPrompt (previous : String) : String :=
  "You are an intelligent browsing behavior analyst. Current Analysis: " ++
  promptPrevious previous ++
  " Instructions: identify patterns, categorize activity, extract " ++
  "insights, update the summary, be concise; a tool named " ++
  "fetch_page_content is available. Output format: key patterns, " ++
  "current focus, notable changes. Provide your analysis:"

/-- The user-role message listing the new URLs joined by newlines. -/
def userMessage (items : List String) : String :=
  "**New Activity:**\n" ++ String.intercalate "\n" items

/-- The tool round of `summarize_with_llm` (src/main.rs:467-483): for each
tool call named `fetch_page_content`, parse its arguments with `?`, and if
a string `url` field is present fetch the page with `?` and append a
tool-result message; other calls and argument objects without a `url`
string are skipped. -/
def processToolCalls (env : LlmEnv) :
    List ToolCall → List Msg → Except Err (List Msg)
  | [], msgs => .ok msgs
  | tc :: rest, msgs =>
    if tc.fnName = "fetch_page_content" then
      match env.parseJsonArgs tc.arguments with
      | .error e => .error e
      | .ok none => processToolCalls env rest msgs
      | .ok (some url) =>
        match env.fetch url with
        | .error e => .error e
        | .ok content =>
          processToolCalls env rest (msgs ++ [.toolResult content tc.id])
    else processToolCalls env rest msgs

/-- Embedding of `summarize_with_llm` (src/main.rs:397-503): first request
with `?`, at most one tool round followed by one follow-up request with
`?`, then the first available text content — the follow-up response text,
else the first response text, else the empty string. -/
def summarize_with_llm (env : LlmEnv) (previous : String)
    (items : List String) : Except Err String :=
  let messages : List Msg :=
    [.system (systemPrompt previous), .user (userMessage items)]
  match env.chat1 with
  | .error e => .error e
  | .ok resp =>
    match resp.toolCalls with
    | some tcs =>
      match processToolCalls env tcs messages with
      | .error e => .error e
      | .ok messages2 =>
        match env.chat2 messages2 with
        | .error e => .error e
        | .ok resp2 =>
          match resp2.content with
          | some c => .ok c
          | none =>
            match resp.content with
            | some c => .ok c
            | none => .ok ""
    | none =>
      match resp.content with
      | some c => .ok c
      | none => .ok ""

/-- The filesystem state the two summarization callers touch: the Event Log
Store lines and the Summary State file content. -/
structure Store where
  logLines : List (List Char)
  summaryFile : Option (List Char)

/-- One firing of `ambient_loop` (src/main.rs:513-566): compute the cutoff,
collect the new items, skip when empty, else load the state, summarize, and
persist the new state only on success (a failure is only printed). -/
def ambient_tick (env : LlmEnv) (intervalSecs : Nat) (now : Int)
    (nowDt : DtUtc) (st : Store) : Store :=
  let cutoff := now - (intervalSecs : Int) * nsPerSec
  let newItems := ambient_new_items cutoff st.logLines
  if newItems.isEmpty then st
  else
    let state := SummaryState.load st.summaryFile
    match summarize_with_llm env state.text
        (newItems.map (fun u => String.mk u)) with
    | .ok summary =>
      { st with summaryFile := some (SummaryState.save ⟨summary, nowDt⟩) }
    | .error _ => st

/-- Embedding of `run_analyze` (src/main.rs:588-667): parse the since
expression with `?`, collect at most `max_items` items, return early when
empty, else load the state, summarize with `?` — so a summarization
failure leaves the function before the save — and persist on success.
The first component is the command outcome, `none` when the since-parse
panicked (the process aborts, writing nothing, so the store is
unchanged). -/
def run_analyze_cmd (env : LlmEnv) (sinceStr : List Char) (maxItems : Nat)
    (now : Int) (nowDt : DtUtc) (st : Store) :
    Option (Except Err Unit) × Store :=
  match parse_since now sinceStr with
  | none => (none, st)
  | some (.error e) => (some (.error e), st)
  | some (.ok start) =>
    let items := run_analyze_items start maxItems st.logLines
    if items.isEmpty then (some (.ok ()), st)
    else
      let state := SummaryState.load st.summaryFile
      match summarize_with_llm env state.text
          (items.map (fun u => String.mk u)) with
      | .error e => (some (.error e), st)
      | .ok summary =>
        (some (.ok ()),
          { st with summaryFile := some (SummaryState.save ⟨summary, nowDt⟩) })

/-- Claim C8: a summarization failure — transport error, malformed
(non-JSON) tool-call arguments, or a page-fetch failure in the tool round —
propagates out of `summarize_with_llm` as a single failed outcome, and
neither the ambient loop nor the analyze command writes the Summary State
file when the summarization call fails. -/
theorem c8_failure_no_persist (env : LlmEnv) (e : Err) :
    (∀ previous items, env.chat1 = .error e →
      summarize_with_llm env previous items = .error e) ∧
    (∀ previous items resp tc rest, env.chat1 = .ok resp →
      resp.toolCalls = some (tc :: rest) →
      tc.fnName = "fetch_page_content" →
      env.parseJsonArgs tc.arguments = .error e →
      summarize_with_llm env previous items = .error e) ∧
    (∀ previous items resp tc rest url, env.chat1 = .ok resp →
      resp.toolCalls = some (tc :: rest) →
      tc.fnName = "fetch_page_content" →
      env.parseJsonArgs tc.arguments = .ok (some url) →
      env.fetch url = .error e →
      summarize_with_llm env previous items = .error e) ∧
    (∀ (intervalSecs : Nat) (now : Int) (nowDt : DtUtc) (st : Store),
      summarize_with_llm env (SummaryState.load st.summaryFile).text
        ((ambient_new_items (now - (intervalSecs : Int) * nsPerSec)
          st.logLines).map (fun u => String.mk u)) = .error e →
      (ambient_tick env intervalSecs now nowDt st).summaryFile =
        st.summaryFile) ∧
    (∀ (sinceStr : List Char) (maxItems : Nat) (now : Int) (nowDt : DtUtc)
        (st : Store) (start : Int),
      parse_since now sinceStr = some (.ok start) →
      summarize_with_llm env (SummaryState.load st.summaryFile).text
        ((run_analyze_items start maxItems st.logLines).map
          (fun u => String.mk u)) = .error e →
      (run_analyze_cmd env sinceStr maxItems now nowDt st).2 = st ∧
      ((run_analyze_items start maxItems st.logLines).isEmpty = false →
        (run_analyze_cmd env sinceStr maxItems now nowDt st).1 =
          some (.error e))) := by
  refine ⟨?_, ?_, ?_, ?_, ?_⟩
  · intro previous items h
    unfold summarize_with_llm
    rw [h]
  · intro previous items resp tc rest h1 h2 h3 h4
    unfold summarize_with_llm
    rw [h1]
    simp only [h2]
    simp only [processToolCalls, if_pos h3, h4]
  · intro previous items resp tc rest url h1 h2 h3 h4 h5
    unfold summarize_with_llm
    rw [h1]
    simp only [h2]
    simp only [processToolCalls, if_pos h3, h4, h5]
  · intro intervalSecs now nowDt st h
    simp only [ambient_tick]
    by_cases he : (ambient_new_items (now - (intervalSecs : Int) * nsPerSec)
        st.logLines).isEmpty
    · rw [if_pos he]
    · rw [if_neg he]
      simp only [h]
  · intro sinceStr maxItems now nowDt st start h1 h2
    simp only [run_analyze_cmd, h1]
    by_cases he : (run_analyze_items start maxItems st.logLines).isEmpty
    · rw [if_pos he]
      exact ⟨rfl, fun hne => by rw [he] at hne; cases hne⟩
    · rw [if_neg he]
      simp only [h2]
      exact ⟨trivial, fun _ => trivial⟩

/-- A failing transport for the C8 witness. -/
def c8env : LlmEnv :=
  { chat1 := .error (.llmFail "connection refused")
    parseJsonArgs := fun _ => .error (.jsonFail "not json")
    fetch := fun _ => .error (.fetchFail "fetch failed")
    chat2 := fun _ => .ok ⟨some "summary", none⟩ }

/-- A store line for the C8 witness. -/
def c8line : List Char :=
  "\x7b\"url\":\"http://c.example/\",\"ts\":\"2024-01-02T03:04:05Z\"\x7d".data

/-- A store with one in-window event and an existing summary file. -/
def c8store : Store :=
  ⟨[c8line], some (SummaryState.save ⟨"old summary", ⟨2024, 1, 1, 0, 0, 0, 0⟩⟩)⟩

/-- Witness for C8: the failing transport call propagates, and a concrete
ambient firing over a nonempty batch leaves the summary file unchanged. -/
theorem c8_failure_witness :
    summarize_with_llm c8env "" [] = .error (.llmFail "connection refused") ∧
    (ambient_tick c8env 30 0 ⟨2024, 1, 2, 3, 4, 5, 0⟩ c8store).summaryFile =
      c8store.summaryFile := by
  refine ⟨(c8_failure_no_persist c8env _).1 "" [] rfl, ?_⟩
  exact (c8_failure_no_persist c8env _).2.2.2.1 30 0 ⟨2024, 1, 2, 3, 4, 5, 0⟩
    c8store rfl

end DTP
